import Mathlib

/-!
Formal model of the bounded-concurrency agent admission queue implemented in
`src/server/agentQueueManager.ts` (class `AgentQueueManager`), together with
proofs of the specified properties.

The TypeScript class keeps a `Map<string, RunningAgent>` of running agents,
an array of queued `AgentTask`s (FIFO: `push` at the tail, `shift` at the
head), a fixed `maxConcurrent` capacity, and an optional spawn callback.
We model the `Map` as an association list that mirrors JavaScript `Map`
semantics (`set` replaces in place or appends, `delete` removes the key,
`has` tests membership, `size` is the entry count), the callback as a
boolean flag recording whether one is registered, and `Date.now()` as an
explicit `now : Nat` argument.  Each mutating operation returns the new
state together with the list of tasks passed to the spawn callback during
the call (empty when no callback is registered).
-/

namespace AgentQueue

/-- Mirror of interface `AgentTask` in agentQueueManager.ts. -/
structure AgentTask where
  id : String
  type : String
  prompt : String
  enqueuedAt : Nat
deriving DecidableEq, Repr

/-- Mirror of interface `RunningAgent` in agentQueueManager.ts. -/
structure RunningAgent where
  id : String
  type : String
  startedAt : Nat
deriving DecidableEq, Repr

/-- Model of `Map<string, RunningAgent>`: an association list. -/
abbrev RunningMap := List (String × RunningAgent)

/-- JavaScript `Map.has(k)`. -/
def mapHas (m : RunningMap) (k : String) : Bool :=
  m.any (fun p => p.1 == k)

/-- JavaScript `Map.set(k, v)`: replaces the value in place when the key is
present, otherwise appends the entry in insertion order. -/
def mapSet (m : RunningMap) (k : String) (v : RunningAgent) : RunningMap :=
  if mapHas m k then
    m.map (fun p => if p.1 == k then (k, v) else p)
  else
    m ++ [(k, v)]

/-- JavaScript `Map.delete(k)`. -/
def mapDelete (m : RunningMap) (k : String) : RunningMap :=
  m.filter (fun p => !(p.1 == k))

/-- State of class `AgentQueueManager`. `onSpawnCallback` records whether a
spawn callback is registered (`setSpawnCallback` was called). -/
structure AgentQueueManager where
  maxConcurrent : Int
  runningAgents : RunningMap
  queuedAgents : List AgentTask
  onSpawnCallback : Bool
deriving DecidableEq, Repr

/-- The default value of the constructor argument: `maxConcurrent: number = 2`. -/
def defaultMaxConcurrent : Int := 2

/-- `constructor(maxConcurrent: number = 2)`: stores the argument as-is,
with empty running and queued collections and no callback registered. -/
def mkAgentQueueManager (maxConcurrent : Int) : AgentQueueManager :=
  { maxConcurrent := maxConcurrent
    runningAgents := []
    queuedAgents := []
    onSpawnCallback := false }

/-- `setSpawnCallback(callback)`: registers the spawn callback. -/
def setSpawnCallback (q : AgentQueueManager) : AgentQueueManager :=
  { q with onSpawnCallback := true }

/-- Result type of `enqueueAgent`: the literals `'running' | 'queued'`. -/
inductive EnqueueResult where
  | running
  | queued
deriving DecidableEq, Repr

/-- Private method `startAgent(task)`: inserts the task into
`runningAgents` with `startedAt = now` and invokes the spawn callback with
the task when one is registered.  Returns the new state and the list of
callback invocations. -/
def startAgent (q : AgentQueueManager) (task : AgentTask) (now : Nat) :
    AgentQueueManager × List AgentTask :=
  let q' := { q with
    runningAgents :=
      mapSet q.runningAgents task.id ⟨task.id, task.type, now⟩ }
  (q', if q.onSpawnCallback then [task] else [])

/-- `enqueueAgent(id, task)`: builds the `AgentTask` with
`enqueuedAt = now`; if `runningAgents.size < maxConcurrent` it starts the
task immediately and returns `'running'`, otherwise it pushes the task at
the tail of `queuedAgents` and returns `'queued'`. -/
def enqueueAgent (q : AgentQueueManager) (id type prompt : String)
    (now : Nat) : AgentQueueManager × EnqueueResult × List AgentTask :=
  let agentTask : AgentTask := ⟨id, type, prompt, now⟩
  if (q.runningAgents.length : Int) < q.maxConcurrent then
    let (q', events) := startAgent q agentTask now
    (q', EnqueueResult.running, events)
  else
    ({ q with queuedAgents := q.queuedAgents ++ [agentTask] },
      EnqueueResult.queued, [])

/-- Private method `spawnNextQueued()`: returns unchanged when the waiting
list is empty or no slot is free; otherwise shifts the head of
`queuedAgents` and starts it. -/
def spawnNextQueued (q : AgentQueueManager) (now : Nat) :
    AgentQueueManager × List AgentTask :=
  match q.queuedAgents with
  | [] => (q, [])
  | nextTask :: rest =>
    if (q.runningAgents.length : Int) ≥ q.maxConcurrent then
      (q, [])
    else
      startAgent { q with queuedAgents := rest } nextTask now

/-- `markAgentComplete(id)`: when `id` is not running, logs a warning and
returns with the state unchanged; otherwise deletes `id` from
`runningAgents` and calls `spawnNextQueued()`. -/
def markAgentComplete (q : AgentQueueManager) (id : String) (now : Nat) :
    AgentQueueManager × List AgentTask :=
  if mapHas q.runningAgents id then
    spawnNextQueued
      { q with runningAgents := mapDelete q.runningAgents id } now
  else
    (q, [])

/-- `getRunningCount()`: `runningAgents.size`. -/
def getRunningCount (q : AgentQueueManager) : Nat :=
  q.runningAgents.length

/-- `getQueuedCount()`: `queuedAgents.length`. -/
def getQueuedCount (q : AgentQueueManager) : Nat :=
  q.queuedAgents.length

/-- `isAgentRunning(id)`: `runningAgents.has(id)`. -/
def isAgentRunning (q : AgentQueueManager) (id : String) : Bool :=
  mapHas q.runningAgents id

/-- `getStatus()`: the `{running, queued, max}` snapshot. -/
def getStatus (q : AgentQueueManager) : Nat × Nat × Int :=
  (q.runningAgents.length, q.queuedAgents.length, q.maxConcurrent)

/-- One externally invokable call on the queue, for reasoning about call
sequences.  `Date.now()` at the moment of the call is the `now` field. -/
inductive QueueOp where
  | enqueue (id type prompt : String) (now : Nat)
  | complete (id : String) (now : Nat)
  | setCallback
deriving DecidableEq, Repr

/-- Apply one call, returning the new state and the spawn-callback
invocations it produced. -/
def applyOp (q : AgentQueueManager) : QueueOp → AgentQueueManager × List AgentTask
  | QueueOp.enqueue id type prompt now =>
    let (q', _, events) := enqueueAgent q id type prompt now
    (q', events)
  | QueueOp.complete id now => markAgentComplete q id now
  | QueueOp.setCallback => (setSpawnCallback q, [])

/-- Run a sequence of calls, keeping only the final state. -/
def runOps (q : AgentQueueManager) : List QueueOp → AgentQueueManager
  | [] => q
  | op :: ops => runOps (applyOp q op).1 ops

/-! ### Basic facts about the `Map` model -/

lemma mapHas_iff_mem (m : RunningMap) (k : String) :
    mapHas m k = true ↔ k ∈ m.map Prod.fst := by
  simp [mapHas, List.any_eq_true]

lemma keys_mapSet_of_has {m : RunningMap} {k : String} (v : RunningAgent)
    (h : mapHas m k = true) :
    (mapSet m k v).map Prod.fst = m.map Prod.fst := by
  simp only [mapSet, h, if_true, List.map_map]
  apply List.map_congr_left
  intro p _
  by_cases hp : p.1 = k
  · simp [Function.comp, hp]
  · simp [Function.comp, hp]

lemma keys_mapSet_of_not_has {m : RunningMap} {k : String} (v : RunningAgent)
    (h : mapHas m k = false) :
    (mapSet m k v).map Prod.fst = m.map Prod.fst ++ [k] := by
  simp [mapSet, h]

lemma length_mapSet (m : RunningMap) (k : String) (v : RunningAgent) :
    (mapSet m k v).length = if mapHas m k then m.length else m.length + 1 := by
  unfold mapSet
  split <;> simp

lemma length_mapSet_le (m : RunningMap) (k : String) (v : RunningAgent) :
    (mapSet m k v).length ≤ m.length + 1 := by
  rw [length_mapSet]
  split <;> omega

lemma mapHas_mapSet_iff (m : RunningMap) (k : String) (v : RunningAgent)
    (k' : String) :
    mapHas (mapSet m k v) k' = true ↔ (k' = k ∨ mapHas m k' = true) := by
  by_cases h : mapHas m k
  · rw [mapHas_iff_mem, keys_mapSet_of_has v h, ← mapHas_iff_mem]
    constructor
    · exact Or.inr
    · rintro (rfl | hk)
      · exact h
      · exact hk
  · rw [mapHas_iff_mem, keys_mapSet_of_not_has v (Bool.not_eq_true _ ▸ h),
      List.mem_append, ← mapHas_iff_mem]
    simp [or_comm]

lemma keys_mapDelete_sublist (m : RunningMap) (k : String) :
    List.Sublist ((mapDelete m k).map Prod.fst) (m.map Prod.fst) :=
  (List.filter_sublist m).map Prod.fst

lemma length_mapDelete_le (m : RunningMap) (k : String) :
    (mapDelete m k).length ≤ m.length :=
  List.length_filter_le _ m

lemma mapHas_mapDelete_self (m : RunningMap) (k : String) :
    mapHas (mapDelete m k) k = false := by
  simp [mapDelete, mapHas, List.any_eq_true, List.mem_filter]

lemma mapHas_mapDelete_iff (m : RunningMap) (k k' : String) :
    mapHas (mapDelete m k) k' = true ↔ (mapHas m k' = true ∧ k' ≠ k) := by
  simp only [mapDelete, mapHas, List.any_eq_true, List.mem_filter]
  constructor
  · rintro ⟨p, ⟨hp, hpk⟩, hk⟩
    rw [beq_iff_eq] at hk
    subst hk
    simp only [Bool.not_eq_eq_eq_not, Bool.not_true, beq_eq_false_iff_ne] at hpk
    exact ⟨⟨p, hp, by simp⟩, hpk⟩
  · rintro ⟨⟨p, hp, hpk⟩, hk⟩
    rw [beq_iff_eq] at hpk
    refine ⟨p, ⟨hp, ?_⟩, by simp [hpk]⟩
    simp [hpk, hk]

lemma mapDelete_eq_self_of_not_has {m : RunningMap} {k : String}
    (h : mapHas m k = false) : mapDelete m k = m := by
  apply List.filter_eq_self.2
  intro p hp
  rw [mapHas, Bool.eq_false_iff, Ne, List.any_eq_true] at h
  simp only [Bool.not_eq_eq_eq_not, Bool.not_true, beq_eq_false_iff_ne]
  intro hpk
  exact h ⟨p, hp, by simp [hpk]⟩

lemma length_mapDelete_of_has {m : RunningMap} {k : String}
    (h : mapHas m k = true) : (mapDelete m k).length < m.length := by
  rw [mapHas_iff_mem] at h
  obtain ⟨p, hp, hpk⟩ := List.mem_map.1 h
  apply List.length_filter_lt_length_iff_exists.2
  exact ⟨p, hp, by simp [hpk]⟩

/-! ### The capacity field is never mutated -/

lemma spawnNextQueued_maxConcurrent (q : AgentQueueManager) (now : Nat) :
    (spawnNextQueued q now).1.maxConcurrent = q.maxConcurrent := by
  unfold spawnNextQueued
  split
  · rfl
  · split
    · rfl
    · simp [startAgent]

lemma markAgentComplete_maxConcurrent (q : AgentQueueManager) (id : String)
    (now : Nat) :
    (markAgentComplete q id now).1.maxConcurrent = q.maxConcurrent := by
  unfold markAgentComplete
  split
  · exact spawnNextQueued_maxConcurrent _ _
  · rfl

lemma enqueueAgent_maxConcurrent (q : AgentQueueManager)
    (id type prompt : String) (now : Nat) :
    (enqueueAgent q id type prompt now).1.maxConcurrent = q.maxConcurrent := by
  unfold enqueueAgent
  split
  · simp [startAgent]
  · rfl

lemma applyOp_maxConcurrent (q : AgentQueueManager) (op : QueueOp) :
    (applyOp q op).1.maxConcurrent = q.maxConcurrent := by
  cases op with
  | enqueue id type prompt now =>
    simp only [applyOp]
    exact enqueueAgent_maxConcurrent q id type prompt now
  | complete id now => exact markAgentComplete_maxConcurrent q id now
  | setCallback => rfl

lemma runOps_maxConcurrent :
    ∀ (ops : List QueueOp) (q : AgentQueueManager),
      (runOps q ops).maxConcurrent = q.maxConcurrent
  | [], _ => rfl
  | op :: ops, q => by
    rw [runOps, runOps_maxConcurrent ops, applyOp_maxConcurrent]

/-! ### Claim C1: the running count never exceeds the capacity -/

lemma startAgent_bound (q : AgentQueueManager) (task : AgentTask) (now : Nat)
    (hlt : (q.runningAgents.length : Int) < q.maxConcurrent) :
    ((startAgent q task now).1.runningAgents.length : Int) ≤ q.maxConcurrent := by
  simp only [startAgent]
  have hle := length_mapSet_le q.runningAgents task.id ⟨task.id, task.type, now⟩
  push_cast at *
  omega

lemma spawnNextQueued_bound (q : AgentQueueManager) (now : Nat)
    (h : (q.runningAgents.length : Int) ≤ q.maxConcurrent) :
    ((spawnNextQueued q now).1.runningAgents.length : Int) ≤ q.maxConcurrent := by
  unfold spawnNextQueued
  split
  · exact h
  · split
    · exact h
    · rename_i hlt
      exact startAgent_bound _ _ _ (lt_of_not_ge hlt)

lemma markAgentComplete_bound (q : AgentQueueManager) (id : String) (now : Nat)
    (h : (q.runningAgents.length : Int) ≤ q.maxConcurrent) :
    ((markAgentComplete q id now).1.runningAgents.length : Int) ≤
      q.maxConcurrent := by
  unfold markAgentComplete
  split
  · have hd := length_mapDelete_le q.runningAgents id
    exact spawnNextQueued_bound _ now (by push_cast at *; omega)
  · exact h

lemma enqueueAgent_bound (q : AgentQueueManager) (id type prompt : String)
    (now : Nat) (h : (q.runningAgents.length : Int) ≤ q.maxConcurrent) :
    ((enqueueAgent q id type prompt now).1.runningAgents.length : Int) ≤
      q.maxConcurrent := by
  unfold enqueueAgent
  split
  · rename_i hlt
    exact startAgent_bound _ _ _ hlt
  · exact h

lemma applyOp_bound (q : AgentQueueManager) (op : QueueOp)
    (h : (q.runningAgents.length : Int) ≤ q.maxConcurrent) :
    ((applyOp q op).1.runningAgents.length : Int) ≤ q.maxConcurrent := by
  cases op with
  | enqueue id type prompt now =>
    simp only [applyOp]
    exact enqueueAgent_bound q id type prompt now h
  | complete id now => exact markAgentComplete_bound q id now h
  | setCallback => exact h

lemma runOps_bound :
    ∀ (ops : List QueueOp) (q : AgentQueueManager),
      (q.runningAgents.length : Int) ≤ q.maxConcurrent →
      ((runOps q ops).runningAgents.length : Int) ≤ q.maxConcurrent
  | [], _, h => h
  | op :: ops, q, h => by
    rw [runOps]
    have := runOps_bound ops (applyOp q op).1
      (by rw [applyOp_maxConcurrent]; exact applyOp_bound q op h)
    rwa [applyOp_maxConcurrent] at this

/-- Claim C1: for every sequence of calls on a queue constructed with a
positive `maxConcurrent = M`, the running count (`getRunningCount`) never
exceeds `M` after any call. -/
theorem running_count_le_max (M : Int) (hM : 0 < M) (ops : List QueueOp) :
    ((getRunningCount (runOps (mkAgentQueueManager M) ops)) : Int) ≤ M := by
  have h0 : (((mkAgentQueueManager M).runningAgents.length : Nat) : Int) ≤
      (mkAgentQueueManager M).maxConcurrent := by
    simp [mkAgentQueueManager]
    omega
  have := runOps_bound ops (mkAgentQueueManager M) h0
  simpa [getRunningCount, mkAgentQueueManager] using this

/-- Witness for C1: a concrete trace of three enqueues and one completion
on a queue of capacity 2 keeps the running count at most 2. -/
theorem running_count_le_max_witness :
    (0 : Int) < 2 ∧
      ((getRunningCount (runOps (mkAgentQueueManager 2)
        [QueueOp.enqueue "a" "t" "p" 0, QueueOp.enqueue "b" "t" "p" 1,
          QueueOp.enqueue "c" "t" "p" 2, QueueOp.complete "a" 3])) : Int) ≤ 2 :=
  ⟨by norm_num,
    running_count_le_max 2 (by norm_num)
      [QueueOp.enqueue "a" "t" "p" 0, QueueOp.enqueue "b" "t" "p" 1,
        QueueOp.enqueue "c" "t" "p" 2, QueueOp.complete "a" 3]⟩

/-! ### Claims C6 and C9: completing an unknown id is a strict no-op -/

/-- Claim C6: calling `markAgentComplete` with an id that is not running
leaves the state unchanged, fires no spawn callback, and changes neither
the running count nor the queued count. -/
theorem complete_unknown_id_noop (q : AgentQueueManager) (id : String)
    (now : Nat) (h : isAgentRunning q id = false) :
    markAgentComplete q id now = (q, []) ∧
      getRunningCount (markAgentComplete q id now).1 = getRunningCount q ∧
      getQueuedCount (markAgentComplete q id now).1 = getQueuedCount q := by
  rw [isAgentRunning] at h
  rw [markAgentComplete, if_neg (by simp [h])]
  exact ⟨rfl, rfl, rfl⟩

/-- Witness for C6: completing "ghost" on a fresh queue of capacity 2 is a
no-op. -/
theorem complete_unknown_id_noop_witness :
    isAgentRunning (mkAgentQueueManager 2) "ghost" = false ∧
      markAgentComplete (mkAgentQueueManager 2) "ghost" 5 =
        (mkAgentQueueManager 2, []) :=
  ⟨by rfl, (complete_unknown_id_noop (mkAgentQueueManager 2) "ghost" 5 rfl).1⟩

/-- Claim C9 (implicit): completing an id that is not running performs no
promotion at all — even when the waiting list is non-empty and a running
slot is free, the state is unchanged and no callback fires, because
`markAgentComplete` returns before `spawnNextQueued`. -/
theorem complete_unknown_no_promotion (q : AgentQueueManager) (id : String)
    (now : Nat) (h : isAgentRunning q id = false)
    (hqueued : q.queuedAgents ≠ [])
    (hslot : (q.runningAgents.length : Int) < q.maxConcurrent) :
    (markAgentComplete q id now).1 = q ∧
      (markAgentComplete q id now).2 = [] := by
  rw [isAgentRunning] at h
  rw [markAgentComplete, if_neg (by simp [h])]
  exact ⟨rfl, rfl⟩

/-- Witness for C9: a queue of capacity 2 with one task running and one
waiting (constructed directly) ignores a completion for the unknown id
"ghost" even though a slot is free. -/
theorem complete_unknown_no_promotion_witness :
    (let q : AgentQueueManager :=
      { maxConcurrent := 2
        runningAgents := [("a", ⟨"a", "t", 0⟩)]
        queuedAgents := [⟨"b", "t", "p", 1⟩]
        onSpawnCallback := true }
    isAgentRunning q "ghost" = false ∧ q.queuedAgents ≠ [] ∧
      (q.runningAgents.length : Int) < q.maxConcurrent ∧
      (markAgentComplete q "ghost" 5).1 = q ∧
      (markAgentComplete q "ghost" 5).2 = []) :=
  ⟨by rfl, by simp,
    by norm_num,
    (complete_unknown_no_promotion _ "ghost" 5 (by rfl) (by simp)
      (by norm_num)).1,
    (complete_unknown_no_promotion _ "ghost" 5 (by rfl) (by simp)
      (by norm_num)).2⟩

/-! ### Claims C4 and C10: the constructor performs no validation -/

/-- Counterexample to claim C4: constructing with `maxConcurrent = 0` (and
with `-1`) does not fail — it yields an operational queue that stores the
non-positive value as-is and simply queues every task. -/
theorem construct_zero_no_failure :
    (mkAgentQueueManager 0).maxConcurrent = 0 ∧
      (mkAgentQueueManager (-1)).maxConcurrent = -1 ∧
      (enqueueAgent (mkAgentQueueManager 0) "a" "t" "p" 0).2.1 =
        EnqueueResult.queued :=
  ⟨rfl, rfl, rfl⟩

/-- Claim C4 as amended: the constructor accepts any `maxConcurrent`
without validation and stores it as-is; with a non-positive capacity no
task is ever admitted to run (every enqueue returns `'queued'`), so the
misconfiguration is silent rather than fail-fast, and concurrency is never
unbounded. -/
theorem nonpositive_capacity_never_admits (m : Int) (hm : m ≤ 0)
    (q : AgentQueueManager) (hq : q.maxConcurrent = m)
    (id type prompt : String) (now : Nat) :
    (mkAgentQueueManager m).maxConcurrent = m ∧
      (enqueueAgent q id type prompt now).2.1 = EnqueueResult.queued ∧
      (enqueueAgent q id type prompt now).1.runningAgents =
        q.runningAgents := by
  refine ⟨rfl, ?_, ?_⟩ <;>
    rw [enqueueAgent, if_neg (by rw [hq]; omega)]

/-- Witness for C4 (amended): capacity 0 queues the very first task. -/
theorem nonpositive_capacity_never_admits_witness :
    (0 : Int) ≤ 0 ∧ (mkAgentQueueManager 0).maxConcurrent = 0 ∧
      (enqueueAgent (mkAgentQueueManager 0) "a" "t" "p" 7).2.1 =
        EnqueueResult.queued :=
  ⟨le_refl 0, rfl,
    (nonpositive_capacity_never_admits 0 (le_refl 0) (mkAgentQueueManager 0)
      rfl "a" "t" "p" 7).2.1⟩

/-- Claim C10 (implicit): the constructor's default capacity is exactly 2,
and any supplied value — zero and negatives included — is stored as-is
with no validation, yielding a working queue with empty collections. -/
theorem constructor_defaults_and_stores_as_is :
    defaultMaxConcurrent = 2 ∧
      (∀ m : Int, (mkAgentQueueManager m).maxConcurrent = m ∧
        (mkAgentQueueManager m).runningAgents = [] ∧
        (mkAgentQueueManager m).queuedAgents = []) ∧
      (getStatus (runOps (mkAgentQueueManager defaultMaxConcurrent)
        [QueueOp.enqueue "a" "t" "p" 0, QueueOp.enqueue "b" "t" "p" 1,
          QueueOp.enqueue "c" "t" "p" 2])) = (2, 1, 2) :=
  ⟨rfl, fun _ => ⟨rfl, rfl, rfl⟩, by rfl⟩

/-! ### Claim C2: completion promotes the FIFO head with its original data -/

/-- Claim C2: completing a running task while the waiting list is non-empty
promotes exactly the head of the waiting list — the task enqueued earliest
among those still waiting when the list is in arrival order (enqueues
append at the tail, so `enqueuedAt` is non-decreasing along the list) — and
the spawn callback is invoked with that task's original record, carrying
its original `type` (kind) and `prompt` (payload). -/
theorem complete_promotes_fifo_head (q : AgentQueueManager) (id : String)
    (now : Nat) (t : AgentTask) (rest : List AgentTask)
    (hrun : isAgentRunning q id = true)
    (hq : q.queuedAgents = t :: rest)
    (hcap : ((mapDelete q.runningAgents id).length : Int) < q.maxConcurrent)
    (hcb : q.onSpawnCallback = true)
    (hsorted : q.queuedAgents.Pairwise
      (fun a b => a.enqueuedAt ≤ b.enqueuedAt)) :
    (markAgentComplete q id now).2 = [t] ∧
      (markAgentComplete q id now).1.queuedAgents = rest ∧
      isAgentRunning (markAgentComplete q id now).1 t.id = true ∧
      ∀ u ∈ rest, t.enqueuedAt ≤ u.enqueuedAt := by
  rw [isAgentRunning] at hrun
  rw [markAgentComplete, if_pos hrun]
  simp only [spawnNextQueued, hq]
  rw [if_neg (not_le.2 hcap)]
  simp only [startAgent, hcb, if_true]
  refine ⟨trivial, trivial, ?_, ?_⟩
  · rw [isAgentRunning]
    exact (mapHas_mapSet_iff _ _ _ _).2 (Or.inl rfl)
  · rw [hq] at hsorted
    exact (List.pairwise_cons.1 hsorted).1

/-- Concrete state for the C2 witness: capacity 1, "a" running, "b" then
"c" waiting, callback registered. -/
def fifoWitnessState : AgentQueueManager :=
  { maxConcurrent := 1
    runningAgents := [("a", ⟨"a", "t", 0⟩)]
    queuedAgents :=
      [⟨"b", "kindB", "payloadB", 1⟩, ⟨"c", "kindC", "payloadC", 2⟩]
    onSpawnCallback := true }

/-- Witness for C2: completing "a" on `fifoWitnessState` promotes "b" (the
FIFO head) with its original kind and payload, leaving "c" waiting. -/
theorem complete_promotes_fifo_head_witness :
    (markAgentComplete fifoWitnessState "a" 9).2 =
        [⟨"b", "kindB", "payloadB", 1⟩] ∧
      (markAgentComplete fifoWitnessState "a" 9).1.queuedAgents =
        [⟨"c", "kindC", "payloadC", 2⟩] ∧
      isAgentRunning (markAgentComplete fifoWitnessState "a" 9).1 "b" =
        true := by
  have h := complete_promotes_fifo_head fifoWitnessState "a" 9
    ⟨"b", "kindB", "payloadB", 1⟩ [⟨"c", "kindC", "payloadC", 2⟩]
    (by decide) rfl (by decide) rfl (by decide)
  exact ⟨h.1, h.2.1, h.2.2.1⟩

/-! ### Claim C8: `isAgentRunning` tracks the task lifecycle -/

/-- Claim C8: `isAgentRunning id` is true immediately after an enqueue that
returned `'running'` for that id, and false immediately after completing
that id while it was running, provided the id is not also sitting in the
waiting list (not re-enqueued). -/
theorem isRunning_tracks_lifecycle (q : AgentQueueManager)
    (id type prompt : String) (now now' : Nat) :
    ((enqueueAgent q id type prompt now).2.1 = EnqueueResult.running →
      isAgentRunning (enqueueAgent q id type prompt now).1 id = true) ∧
      (isAgentRunning q id = true →
        (∀ t ∈ q.queuedAgents, t.id ≠ id) →
        isAgentRunning (markAgentComplete q id now').1 id = false) := by
  constructor
  · intro hres
    rw [enqueueAgent] at hres ⊢
    by_cases hlt : (q.runningAgents.length : Int) < q.maxConcurrent
    · rw [if_pos hlt]
      simp only [startAgent, isAgentRunning]
      exact (mapHas_mapSet_iff _ _ _ _).2 (Or.inl rfl)
    · rw [if_neg hlt] at hres
      exact absurd hres (by simp)
  · intro hrun hfresh
    rw [isAgentRunning] at hrun
    rw [markAgentComplete, if_pos hrun]
    rcases hq : q.queuedAgents with _ | ⟨t, rest⟩ <;>
      simp only [spawnNextQueued, hq]
    · exact mapHas_mapDelete_self _ _
    · split
      · exact mapHas_mapDelete_self _ _
      · simp only [startAgent, isAgentRunning]
        rw [Bool.eq_false_iff, Ne]
        intro hmem
        rcases (mapHas_mapSet_iff _ _ _ _).1 hmem with heq | hdel
        · exact hfresh t (hq ▸ List.mem_cons_self t rest) heq.symm
        · rw [mapHas_mapDelete_self] at hdel
          exact Bool.false_ne_true hdel

/-- Witness for C8: on a fresh queue of capacity 1 (callback registered),
enqueuing "a" returns `'running'` and `isAgentRunning "a"` becomes true;
completing "a" then makes it false. -/
theorem isRunning_tracks_lifecycle_witness :
    (enqueueAgent (setSpawnCallback (mkAgentQueueManager 1)) "a" "t" "p"
        0).2.1 = EnqueueResult.running ∧
      isAgentRunning
        (enqueueAgent (setSpawnCallback (mkAgentQueueManager 1)) "a" "t" "p"
          0).1 "a" = true ∧
      isAgentRunning
        (markAgentComplete
          (enqueueAgent (setSpawnCallback (mkAgentQueueManager 1)) "a" "t"
            "p" 0).1 "a" 1).1 "a" = false := by
  refine ⟨by decide, ?_, ?_⟩
  · exact (isRunning_tracks_lifecycle (setSpawnCallback
      (mkAgentQueueManager 1)) "a" "t" "p" 0 1).1 (by decide)
  · exact (isRunning_tracks_lifecycle
      (enqueueAgent (setSpawnCallback (mkAgentQueueManager 1)) "a" "t" "p"
        0).1 "a" "t" "p" 0 1).2 (by decide) (by decide)

/-! ### Claim C3: immediate admission versus queuing, and the M+k counts -/

lemma mapHas_mapSet_false {m : RunningMap} {k k' : String}
    (v : RunningAgent) (h1 : k' ≠ k) (h2 : mapHas m k' = false) :
    mapHas (mapSet m k v) k' = false := by
  rw [Bool.eq_false_iff, Ne]
  intro hmem
  rcases (mapHas_mapSet_iff m k v k').1 hmem with heq | hm
  · exact h1 heq
  · rw [h2] at hm
    exact Bool.false_ne_true hm

/-- Fold `enqueueAgent` over a list of `(id, type, prompt, now)` requests,
keeping the final state. -/
def enqueueAll (q : AgentQueueManager) :
    List (String × String × String × Nat) → AgentQueueManager
  | [] => q
  | (id, type, prompt, now) :: rest =>
    enqueueAll (enqueueAgent q id type prompt now).1 rest

lemma enqueueAll_counts (M : Nat) :
    ∀ (ts : List (String × String × String × Nat)) (q : AgentQueueManager),
      q.maxConcurrent = (M : Int) →
      (∀ t ∈ ts, mapHas q.runningAgents t.1 = false) →
      (ts.map (fun t => t.1)).Nodup →
      q.runningAgents.length ≤ M →
      (enqueueAll q ts).runningAgents.length =
          min (q.runningAgents.length + ts.length) M ∧
        (enqueueAll q ts).queuedAgents.length =
          q.queuedAgents.length + (q.runningAgents.length + ts.length - M)
  | [], q, _, _, _, hr => by
    constructor
    · simp only [enqueueAll, List.length_nil, Nat.add_zero]
      omega
    · simp only [enqueueAll, List.length_nil]
      omega
  | (id, type, prompt, now) :: rest, q, hmax, hfresh, hnodup, hr => by
    have hfresh0 : mapHas q.runningAgents id = false :=
      hfresh _ (List.mem_cons_self _ _)
    simp only [List.map_cons] at hnodup
    have hnd := List.nodup_cons.1 hnodup
    have hnotmem : id ∉ rest.map (fun t => t.1) := hnd.1
    rw [enqueueAll]
    by_cases hlt : q.runningAgents.length < M
    · have hstep : (enqueueAgent q id type prompt now).1 =
          { q with runningAgents :=
              mapSet q.runningAgents id ⟨id, type, now⟩ } := by
        rw [enqueueAgent, if_pos (by rw [hmax]; exact_mod_cast hlt)]
        rfl
      rw [hstep]
      have hlen : (mapSet q.runningAgents id
          (⟨id, type, now⟩ : RunningAgent)).length =
          q.runningAgents.length + 1 := by
        rw [length_mapSet, hfresh0]
        simp
      have := enqueueAll_counts M rest
        { q with runningAgents := mapSet q.runningAgents id ⟨id, type, now⟩ }
        hmax
        (by
          intro t ht
          apply mapHas_mapSet_false
          · intro heq
            exact hnotmem (heq ▸ List.mem_map.2 ⟨t, ht, rfl⟩)
          · exact hfresh t (List.mem_cons_of_mem _ ht))
        hnd.2
        (by simp only [hlen]; omega)
      simp only [hlen] at this
      simp only [List.length_cons]
      omega
    · have hstep : (enqueueAgent q id type prompt now).1 =
          { q with queuedAgents :=
              q.queuedAgents ++ [⟨id, type, prompt, now⟩] } := by
        rw [enqueueAgent,
          if_neg (by rw [hmax]; intro hc; exact hlt (by exact_mod_cast hc))]
      rw [hstep]
      have := enqueueAll_counts M rest
        { q with queuedAgents := q.queuedAgents ++ [⟨id, type, prompt, now⟩] }
        hmax
        (fun t ht => hfresh t (List.mem_cons_of_mem _ ht))
        hnd.2
        hr
      simp only [List.length_append, List.length_cons, List.length_nil]
        at this ⊢
      omega

/-- Claim C3: when a slot is free, `enqueueAgent` records the task as
running, fires the spawn callback synchronously with the task's original
fields (when a callback is registered), and returns `'running'`; otherwise
it appends the task at the tail of the waiting list, fires nothing, and
returns `'queued'` — no task is dropped.  Consequently enqueuing `M + k`
tasks with pairwise-distinct ids on a fresh queue of positive capacity `M`
yields exactly `M` running and `k` queued. -/
theorem enqueue_behavior_and_counts :
    (∀ (q : AgentQueueManager) (id type prompt : String) (now : Nat),
      ((q.runningAgents.length : Int) < q.maxConcurrent →
        (enqueueAgent q id type prompt now).2.1 = EnqueueResult.running ∧
          isAgentRunning (enqueueAgent q id type prompt now).1 id = true ∧
          (q.onSpawnCallback = true →
            (enqueueAgent q id type prompt now).2.2 =
              [⟨id, type, prompt, now⟩])) ∧
        (¬ (q.runningAgents.length : Int) < q.maxConcurrent →
          (enqueueAgent q id type prompt now).2.1 = EnqueueResult.queued ∧
            (enqueueAgent q id type prompt now).1.queuedAgents =
              q.queuedAgents ++ [⟨id, type, prompt, now⟩] ∧
            (enqueueAgent q id type prompt now).2.2 = [])) ∧
      (∀ (M k : Nat) (ts : List (String × String × String × Nat)),
        0 < M → ts.length = M + k → (ts.map (fun t => t.1)).Nodup →
        getRunningCount (enqueueAll (mkAgentQueueManager (M : Int)) ts) = M ∧
          getQueuedCount (enqueueAll (mkAgentQueueManager (M : Int)) ts) =
            k) := by
  constructor
  · intro q id type prompt now
    constructor
    · intro hlt
      rw [enqueueAgent, if_pos hlt]
      refine ⟨rfl, ?_, ?_⟩
      · simp only [startAgent, isAgentRunning]
        exact (mapHas_mapSet_iff _ _ _ _).2 (Or.inl rfl)
      · intro hcb
        simp [startAgent, hcb]
    · intro hge
      rw [enqueueAgent, if_neg hge]
      exact ⟨rfl, rfl, rfl⟩
  · intro M k ts hM hlen hnodup
    have h := enqueueAll_counts M ts (mkAgentQueueManager (M : Int)) rfl
      (fun t _ => rfl) hnodup (by simp [mkAgentQueueManager])
    rw [getRunningCount, getQueuedCount]
    constructor
    · rw [h.1]
      simp only [mkAgentQueueManager, List.length_nil]
      omega
    · rw [h.2]
      simp only [mkAgentQueueManager, List.length_nil]
      omega

/-- Witness for C3: capacity 1, two distinct tasks — the first is admitted
(callback fired with its fields), the second is queued; the counts after
enqueuing M + k = 1 + 1 tasks are 1 running and 1 queued. -/
theorem enqueue_behavior_and_counts_witness :
    ((setSpawnCallback (mkAgentQueueManager 1)).runningAgents.length : Int) <
        (setSpawnCallback (mkAgentQueueManager 1)).maxConcurrent ∧
      (enqueueAgent (setSpawnCallback (mkAgentQueueManager 1)) "a" "t" "p"
          0).2.1 = EnqueueResult.running ∧
      getRunningCount
        (enqueueAll (mkAgentQueueManager ((1 : Nat) : Int))
          [("a", "t", "p", 0), ("b", "u", "q", 1)]) = 1 ∧
      getQueuedCount
        (enqueueAll (mkAgentQueueManager ((1 : Nat) : Int))
          [("a", "t", "p", 0), ("b", "u", "q", 1)]) = 1 := by
  refine ⟨by decide, ?_, ?_, ?_⟩
  · exact ((enqueue_behavior_and_counts.1 (setSpawnCallback
      (mkAgentQueueManager 1)) "a" "t" "p" 0).1 (by decide)).1
  · exact (enqueue_behavior_and_counts.2 1 1
      [("a", "t", "p", 0), ("b", "u", "q", 1)] (by decide) (by decide)
      (by decide)).1
  · exact (enqueue_behavior_and_counts.2 1 1
      [("a", "t", "p", 0), ("b", "u", "q", 1)] (by decide) (by decide)
      (by decide)).2

/-! ### Claim C7: one promotion per completion; draining an empty queue -/

/-- Call `markAgentComplete` once per id in the list, collecting the
spawn-callback events of all calls. -/
def completeAll (now : Nat) : AgentQueueManager → List String →
    AgentQueueManager × List AgentTask
  | q, [] => (q, [])
  | q, id :: rest =>
    let step := markAgentComplete q id now
    let restRun := completeAll now step.1 rest
    (restRun.1, step.2 ++ restRun.2)

lemma markAgentComplete_empty_queue (q : AgentQueueManager) (id : String)
    (now : Nat) (hq : q.queuedAgents = []) :
    markAgentComplete q id now =
      ({ q with runningAgents := mapDelete q.runningAgents id }, []) := by
  rw [markAgentComplete]
  split
  · simp only [spawnNextQueued, hq]
  · rename_i h
    rw [mapDelete_eq_self_of_not_has (Bool.not_eq_true _ ▸ Bool.of_not_eq_true h)]

lemma completeAll_empty_queue (now : Nat) :
    ∀ (ids : List String) (q : AgentQueueManager), q.queuedAgents = [] →
      (completeAll now q ids).1 =
          { q with runningAgents := ids.foldl mapDelete q.runningAgents } ∧
        (completeAll now q ids).2 = []
  | [], q, hq => by
    constructor
    · rw [completeAll, List.foldl_nil]
    · rfl
  | id :: rest, q, hq => by
    rw [completeAll, markAgentComplete_empty_queue q id now hq]
    have ih := completeAll_empty_queue now rest
      { q with runningAgents := mapDelete q.runningAgents id } hq
    exact ⟨by rw [ih.1]; rfl, by rw [ih.2]; rfl⟩

lemma foldl_mapDelete_nil :
    ∀ (ks : List String) (m : RunningMap), (∀ p ∈ m, p.1 ∈ ks) →
      ks.foldl mapDelete m = []
  | [], m, h => by
    cases m with
    | nil => rfl
    | cons p rest => exact absurd (h p (List.mem_cons_self p rest)) (by simp)
  | k :: ks, m, h => by
    rw [List.foldl_cons]
    apply foldl_mapDelete_nil ks
    intro p hp
    rw [mapDelete, List.mem_filter] at hp
    rcases List.mem_cons.1 (h p hp.1) with hk | hks
    · exact absurd hp.2 (by simp [hk])
    · exact hks

/-- Claim C7: a `markAgentComplete` call on a running id removes at most
one task from the waiting list and fires at most one spawn-callback event
(no loop draining the queue); and completing every running task while the
waiting list is empty leaves the running count at zero with no callback
event at all. -/
theorem complete_promotes_at_most_one (q : AgentQueueManager) (id : String)
    (now : Nat) :
    (isAgentRunning q id = true →
      ((markAgentComplete q id now).1.queuedAgents = q.queuedAgents.tail ∨
        (markAgentComplete q id now).1.queuedAgents = q.queuedAgents) ∧
        (markAgentComplete q id now).2.length ≤ 1) ∧
      (q.queuedAgents = [] →
        getRunningCount
            (completeAll now q (q.runningAgents.map Prod.fst)).1 = 0 ∧
          (completeAll now q (q.runningAgents.map Prod.fst)).2 = []) := by
  constructor
  · intro hrun
    rw [isAgentRunning] at hrun
    rw [markAgentComplete, if_pos hrun]
    rcases hq : q.queuedAgents with _ | ⟨t, rest⟩ <;>
      simp only [spawnNextQueued, hq]
    · exact ⟨Or.inr trivial, by simp⟩
    · split
      · exact ⟨Or.inr rfl, by simp⟩
      · simp only [startAgent]
        refine ⟨Or.inl rfl, ?_⟩
        split <;> simp
  · intro hq
    have hall := completeAll_empty_queue now (q.runningAgents.map Prod.fst)
      q hq
    refine ⟨?_, hall.2⟩
    rw [getRunningCount, hall.1]
    have : (q.runningAgents.map Prod.fst).foldl mapDelete q.runningAgents =
        [] :=
      foldl_mapDelete_nil _ _ (fun p hp => List.mem_map.2 ⟨p, hp, rfl⟩)
    simp [this]

/-- Witness for C7: with capacity 2, "a" running and "b" waiting,
completing "a" removes exactly one waiting task; and on a state with two
running tasks and an empty waiting list, completing both leaves zero
running and fires no callback. -/
theorem complete_promotes_at_most_one_witness :
    (let q1 : AgentQueueManager :=
      { maxConcurrent := 2
        runningAgents := [("a", ⟨"a", "t", 0⟩)]
        queuedAgents := [⟨"b", "t", "p", 1⟩]
        onSpawnCallback := true }
    isAgentRunning q1 "a" = true ∧
      (markAgentComplete q1 "a" 5).2.length ≤ 1) ∧
      (let q2 : AgentQueueManager :=
        { maxConcurrent := 2
          runningAgents := [("a", ⟨"a", "t", 0⟩), ("b", ⟨"b", "t", 0⟩)]
          queuedAgents := []
          onSpawnCallback := true }
      getRunningCount
          (completeAll 5 q2 (q2.runningAgents.map Prod.fst)).1 = 0 ∧
        (completeAll 5 q2 (q2.runningAgents.map Prod.fst)).2 = []) := by
  constructor
  · exact ⟨by decide,
      (complete_promotes_at_most_one
        { maxConcurrent := 2
          runningAgents := [("a", ⟨"a", "t", 0⟩)]
          queuedAgents := [⟨"b", "t", "p", 1⟩]
          onSpawnCallback := true } "a" 5).1 (by decide) |>.2⟩
  · exact (complete_promotes_at_most_one
      { maxConcurrent := 2
        runningAgents := [("a", ⟨"a", "t", 0⟩), ("b", ⟨"b", "t", 0⟩)]
        queuedAgents := []
        onSpawnCallback := true } "a" 5).2 rfl

/-! ### Claim C5: id uniqueness across the running set and waiting list -/

/-- State reached by enqueuing the id "a" twice on a fresh queue of
capacity 1: the second enqueue finds the queue at capacity and pushes a
second task with the same id onto the waiting list while the first is
still running. -/
def dupScenario : AgentQueueManager :=
  (enqueueAgent (enqueueAgent (mkAgentQueueManager 1) "a" "t" "p" 0).1
    "a" "t" "p" 1).1

/-- Counterexample to claim C5 as stated: after enqueuing the same id
twice on a capacity-1 queue, "a" is simultaneously in the running set and
in the waiting list — `enqueueAgent` performs no duplicate check. -/
theorem duplicate_enqueue_breaks_uniqueness :
    isAgentRunning dupScenario "a" = true ∧
      "a" ∈ dupScenario.queuedAgents.map (fun t => t.id) := by
  exact ⟨by decide, by decide⟩

/-- The uniqueness invariant of claim C5: no id occurs twice across the
running set and the waiting list. -/
def idsNodup (q : AgentQueueManager) : Prop :=
  (q.runningAgents.map Prod.fst ++
    q.queuedAgents.map (fun t => t.id)).Nodup

/-- The freshness precondition of one call: an enqueue must use an id that
is neither running nor waiting (completions and callback registration are
unrestricted). -/
def opFresh (q : AgentQueueManager) : QueueOp → Bool
  | QueueOp.enqueue id _ _ _ =>
    !(mapHas q.runningAgents id) &&
      !(q.queuedAgents.any (fun t => t.id == id))
  | _ => true

/-- A call sequence respects the documented enqueue precondition: every
enqueue uses an id unknown to the queue at that moment. -/
def freshIds : AgentQueueManager → List QueueOp → Bool
  | _, [] => true
  | q, op :: ops => opFresh q op && freshIds (applyOp q op).1 ops

lemma idsNodup_applyOp (q : AgentQueueManager) (op : QueueOp)
    (hn : idsNodup q) (hf : opFresh q op = true) :
    idsNodup (applyOp q op).1 := by
  cases op with
  | setCallback => exact hn
  | enqueue id type prompt now =>
    simp only [opFresh, Bool.and_eq_true, Bool.not_eq_eq_eq_not,
      Bool.not_true] at hf
    have hrun : mapHas q.runningAgents id = false := by
      simpa using hf.1
    have hwait : id ∉ q.queuedAgents.map (fun t => t.id) := by
      intro hmem
      rcases List.mem_map.1 hmem with ⟨t, ht, hid⟩
      have : q.queuedAgents.any (fun t => t.id == id) = true :=
        List.any_eq_true.2 ⟨t, ht, by simp [hid]⟩
      rw [hf.2] at this
      exact Bool.false_ne_true this
    have hnot : id ∉ q.runningAgents.map Prod.fst := by
      intro hmem
      rw [← mapHas_iff_mem] at hmem
      rw [hrun] at hmem
      exact Bool.false_ne_true hmem
    simp only [applyOp]
    rw [enqueueAgent]
    by_cases hlt : (q.runningAgents.length : Int) < q.maxConcurrent
    · rw [if_pos hlt]
      simp only [startAgent, idsNodup]
      rw [keys_mapSet_of_not_has _ hrun, List.append_assoc]
      rw [show ([id] ++ q.queuedAgents.map (fun t => t.id)) =
        id :: q.queuedAgents.map (fun t => t.id) from rfl]
      rw [List.nodup_middle]
      exact List.nodup_cons.2 ⟨by simp [hnot, hwait], hn⟩
    · rw [if_neg hlt]
      simp only [idsNodup, List.map_append]
      rw [show ((List.map (fun t => t.id) [(⟨id, type, prompt, now⟩ :
          AgentTask)]) = [id]) from rfl, ← List.append_assoc]
      have : (q.runningAgents.map Prod.fst ++
          q.queuedAgents.map (fun t => t.id)) ++ [id] =
          (q.runningAgents.map Prod.fst ++
            q.queuedAgents.map (fun t => t.id)) ++ id :: [] := rfl
      rw [this, List.nodup_middle]
      refine List.nodup_cons.2 ⟨?_, by simpa using hn⟩
      simp only [List.append_nil, List.mem_append]
      rintro (h | h)
      · exact hnot h
      · exact hwait h
  | complete id now =>
    simp only [applyOp]
    rw [markAgentComplete]
    by_cases hhas : mapHas q.runningAgents id = true
    · rw [if_pos hhas]
      have hsub : List.Sublist
          ((mapDelete q.runningAgents id).map Prod.fst ++
            q.queuedAgents.map (fun t => t.id))
          (q.runningAgents.map Prod.fst ++
            q.queuedAgents.map (fun t => t.id)) :=
        List.Sublist.append (keys_mapDelete_sublist _ _)
          (List.Sublist.refl _)
      have hn1 : ((mapDelete q.runningAgents id).map Prod.fst ++
          q.queuedAgents.map (fun t => t.id)).Nodup := hsub.nodup hn
      rcases hq : q.queuedAgents with _ | ⟨t, rest⟩ <;>
        simp only [spawnNextQueued, hq]
      · simpa [idsNodup, hq] using hn1
      · split
        · simpa [idsNodup, hq] using hn1
        · rw [hq] at hn1
          have hne : mapHas (mapDelete q.runningAgents id) t.id = false := by
            rw [Bool.eq_false_iff, Ne, mapHas_iff_mem]
            intro hmem
            rcases List.nodup_append.1 hn1 with ⟨_, _, hdisj⟩
            exact hdisj hmem (by simp)
          simp only [startAgent, idsNodup]
          rw [keys_mapSet_of_not_has _ hne, List.append_assoc]
          rw [show ([t.id] ++ rest.map (fun t => t.id)) =
            t.id :: rest.map (fun t => t.id) from rfl]
          rw [List.nodup_middle]
          simp only [List.map_cons] at hn1
          exact List.nodup_middle.1 hn1
    · rw [if_neg hhas]
      exact hn

lemma runOps_idsNodup :
    ∀ (ops : List QueueOp) (q : AgentQueueManager), idsNodup q →
      freshIds q ops = true → idsNodup (runOps q ops)
  | [], _, hn, _ => hn
  | op :: ops, q, hn, hf => by
    rw [freshIds, Bool.and_eq_true] at hf
    exact runOps_idsNodup ops (applyOp q op).1
      (idsNodup_applyOp q op hn hf.1) hf.2

/-- Claim C5 as amended: whenever every enqueue in a call sequence uses an
id unknown to the queue at that moment (the documented precondition), each
id appears at most once across the running set and the waiting list in
every reachable state; `enqueueAgent` itself performs no duplicate check,
so violating the precondition does break the invariant. -/
theorem unique_ids_on_fresh_traces (M : Int) (ops : List QueueOp)
    (h : freshIds (mkAgentQueueManager M) ops = true) :
    idsNodup (runOps (mkAgentQueueManager M) ops) :=
  runOps_idsNodup ops (mkAgentQueueManager M) (by simp [idsNodup, mkAgentQueueManager]) h

/-- Witness for C5 (amended): a distinct-id trace of three enqueues and
one completion on a capacity-1 queue keeps all ids unique. -/
theorem unique_ids_on_fresh_traces_witness :
    freshIds (mkAgentQueueManager 1)
        [QueueOp.enqueue "a" "t" "p" 0, QueueOp.enqueue "b" "t" "p" 1,
          QueueOp.complete "a" 2, QueueOp.enqueue "c" "t" "p" 3] = true ∧
      idsNodup (runOps (mkAgentQueueManager 1)
        [QueueOp.enqueue "a" "t" "p" 0, QueueOp.enqueue "b" "t" "p" 1,
          QueueOp.complete "a" 2, QueueOp.enqueue "c" "t" "p" 3]) :=
  ⟨by decide,
    unique_ids_on_fresh_traces 1
      [QueueOp.enqueue "a" "t" "p" 0, QueueOp.enqueue "b" "t" "p" 1,
        QueueOp.complete "a" 2, QueueOp.enqueue "c" "t" "p" 3]
      (by decide)⟩

end AgentQueue
